import Mathlib

/-!
Verification of the edo templating library (src/parse.rs, src/lib.rs, src/error.rs).

The parser in src/parse.rs is written with 2016-era nom combinator macros
operating on byte slices.  Since `parse` receives a `&str` (valid UTF-8) and all
grammar delimiters are ASCII, a character-level model over `List Char` is
byte-faithful: an ASCII byte can never occur inside a multi-byte UTF-8
sequence, and nom's `is_alphanumeric` accepts exactly the ASCII alphanumeric
bytes, which `Char.isAlphanum` accepts exactly on characters.

The nom combinators are modelled with their nom 1.x semantics, which is the
version the crate builds against:
  * results are three-valued: `done remaining value`, `error`, `incomplete`;
  * `tag!`/`char!` give `incomplete` on too-short input, otherwise match or
    `error`;
  * `take_until!` gives `incomplete` when the needle is longer than the
    remaining input, `done` when the needle occurs, and `error` otherwise;
  * `is_not!` gives `error` when the first character is forbidden and
    otherwise consumes the maximal allowed prefix;
  * `alphanumeric` gives `incomplete` on empty input, `error` when the first
    character is not ASCII-alphanumeric, otherwise consumes the maximal
    alphanumeric prefix;
  * `alt!` falls through to the next branch only on `error` and propagates
    `incomplete`;
  * an optional (`?`) field inside `chain!` turns `error` of the inner
    parser into "absent", resuming at the original position, but propagates
    `incomplete`, preserving nom's streaming behaviour;
  * `many0!` stops on `error` of the inner parser, returning `done` with the
    unconsumed remainder, propagates `incomplete`, and raises `error` if the
    inner parser succeeds without consuming input;
  * `separated_list!` returns the empty list when the first element fails,
    rolls the separator back when an element after a separator fails, and
    propagates `incomplete`.
-/

/-- Model of nom's `IResult`: `done` carries the unconsumed remainder and the
parsed value; error kinds and needed-sizes are never inspected by the program,
so they are dropped. -/
inductive IResult (α : Type) : Type where
  | done : List Char → α → IResult α
  | error : IResult α
  | incomplete : IResult α
deriving DecidableEq, Repr

/-- `Expression` from src/parse.rs: a parsed template element. -/
inductive Expression : Type where
  | function : String → List String → Expression
  | literal : String → Expression
deriving DecidableEq, Repr

/-- `EdoError` from src/error.rs. -/
inductive EdoError : Type where
  | ParsingError : EdoError
deriving DecidableEq, Repr

/-- nom `char!(c)` (also `tag!` on the one-character tags of this grammar):
incomplete on empty input, otherwise consume `c` or fail. -/
def charP (c : Char) : List Char → IResult Unit
  | [] => IResult.incomplete
  | x :: xs => if x = c then IResult.done xs () else IResult.error

/-- nom `take_until!` specialised to the one-character needles of this
grammar: incomplete when the needle cannot fit, `done` with the consumed
prefix when the needle occurs, `error` otherwise. The needle itself is left
in the remainder. -/
def takeUntilChar (c : Char) (i : List Char) : IResult (List Char) :=
  match i with
  | [] => IResult.incomplete
  | x :: xs =>
    if c ∈ x :: xs then
      IResult.done ((x :: xs).dropWhile (· != c)) ((x :: xs).takeWhile (· != c))
    else IResult.error

/-- nom `is_not!` specialised to the one-character set of this grammar:
error when the first character is forbidden, otherwise consume the maximal
prefix avoiding it (all of the input when it never occurs). -/
def isNotChar (c : Char) : List Char → IResult (List Char)
  | [] => IResult.done [] []
  | x :: xs =>
    if x = c then IResult.error
    else IResult.done ((x :: xs).dropWhile (· != c)) ((x :: xs).takeWhile (· != c))

/-- ASCII-alphanumeric test, matching nom's byte-level `is_alphanumeric`. -/
def isAlphanumericChar (c : Char) : Bool := c.isAlphanum

/-- nom `alphanumeric`: incomplete on empty input, error when the first
character is not ASCII-alphanumeric, otherwise the maximal alphanumeric
prefix. -/
def alphanumeric : List Char → IResult (List Char)
  | [] => IResult.incomplete
  | x :: xs =>
    if isAlphanumericChar x then
      IResult.done ((x :: xs).dropWhile isAlphanumericChar)
        ((x :: xs).takeWhile isAlphanumericChar)
    else IResult.error

/-- `many0!(char!(' '))`: always succeeds, consuming the leading spaces. -/
def spaces (i : List Char) : IResult Unit :=
  IResult.done (i.dropWhile (· == ' ')) ()

/-- The argument separator `terminated!(char!(','), many0!(char!(' ')))`
from the `arguments` definition in src/parse.rs. -/
def argSeparator (i : List Char) : IResult Unit :=
  match charP ',' i with
  | IResult.done i1 _ =>
    match spaces i1 with
    | IResult.done i2 _ => IResult.done i2 ()
    | IResult.error => IResult.error
    | IResult.incomplete => IResult.incomplete
  | IResult.error => IResult.error
  | IResult.incomplete => IResult.incomplete

/-- One argument token: `map_res!(alphanumeric, str::from_utf8)`.  The input
characters come from a valid string, so the UTF-8 decoding step never fails
and is modelled by `String.mk`. -/
def argElement (i : List Char) : IResult String :=
  match alphanumeric i with
  | IResult.done r cs => IResult.done r (String.mk cs)
  | IResult.error => IResult.error
  | IResult.incomplete => IResult.incomplete

/-- Loop of `separated_list!` after the first element: parse separator then
element; on element failure the separator is rolled back.  `fuel` bounds the
recursion; every iteration consumes at least two characters, so the caller's
fuel is always sufficient. -/
def sepListLoop : Nat → List String → List Char → IResult (List String)
  | 0, acc, input => IResult.done input acc
  | fuel + 1, acc, input =>
    match argSeparator input with
    | IResult.error => IResult.done input acc
    | IResult.incomplete => IResult.incomplete
    | IResult.done i2 _ =>
      match argElement i2 with
      | IResult.error => IResult.done input acc
      | IResult.incomplete => IResult.incomplete
      | IResult.done i3 b => sepListLoop fuel (acc ++ [b]) i3

/-- `separated_list!(separator, element)` from the `arguments` definition. -/
def separatedList (i : List Char) : IResult (List String) :=
  match argElement i with
  | IResult.error => IResult.done i []
  | IResult.incomplete => IResult.incomplete
  | IResult.done i1 a => sepListLoop (i1.length + 1) [a] i1

/-- `arguments` from src/parse.rs: a parenthesised separated list of
alphanumeric tokens. -/
def arguments (i : List Char) : IResult (List String) :=
  match charP '\x28' i with
  | IResult.done i1 _ =>
    match separatedList i1 with
    | IResult.done i2 as =>
      match charP '\x29' i2 with
      | IResult.done i3 _ => IResult.done i3 as
      | IResult.error => IResult.error
      | IResult.incomplete => IResult.incomplete
    | IResult.error => IResult.error
    | IResult.incomplete => IResult.incomplete
  | IResult.error => IResult.error
  | IResult.incomplete => IResult.incomplete

/-- The name alternation inside `function`:
`alt!(take_until!("(") | take_until!("}"))`.  `alt!` falls through only on
`error`. -/
def functionName (i : List Char) : IResult (List Char) :=
  match takeUntilChar '\x28' i with
  | IResult.done r cs => IResult.done r cs
  | IResult.error => takeUntilChar '\x7d' i
  | IResult.incomplete => IResult.incomplete

/-- The `args: arguments? ~` step of `chain!` in `function`: an `error` of
`arguments` becomes "absent", resuming at the original position, with the
missing argument list becoming the empty vector (`args.unwrap_or(vec![])`);
an `incomplete` of `arguments` is propagated, as `chain!` does for its
optional fields. -/
def optArguments (i : List Char) : IResult (List String) :=
  match arguments i with
  | IResult.done i3 as => IResult.done i3 as
  | IResult.error => IResult.done i []
  | IResult.incomplete => IResult.incomplete

/-- The closing `tag!("}")` step of `function`, building the expression from
the parsed name and optional arguments. -/
def functionClose (nameCs : List Char) (args : List String) (i3 : List Char) :
    IResult Expression :=
  match charP '\x7d' i3 with
  | IResult.done i4 _ =>
    IResult.done i4 (Expression.function (String.mk nameCs) args)
  | IResult.error => IResult.error
  | IResult.incomplete => IResult.incomplete

/-- `function` from src/parse.rs: open brace, name, optional argument list,
close brace. -/
def function (i : List Char) : IResult Expression :=
  match charP '\x7b' i with
  | IResult.done i1 _ =>
    match functionName i1 with
    | IResult.done i2 nameCs =>
      match optArguments i2 with
      | IResult.done i3 args => functionClose nameCs args i3
      | IResult.error => IResult.error
      | IResult.incomplete => IResult.incomplete
    | IResult.error => IResult.error
    | IResult.incomplete => IResult.incomplete
  | IResult.error => IResult.error
  | IResult.incomplete => IResult.incomplete

/-- `literal` from src/parse.rs: `map!(map_res!(is_not!("{"), tocow),
Expression::Literal)`. -/
def literal (i : List Char) : IResult Expression :=
  match isNotChar '\x7b' i with
  | IResult.done r cs => IResult.done r (Expression.literal (String.mk cs))
  | IResult.error => IResult.error
  | IResult.incomplete => IResult.incomplete

/-- The alternation `alt!(function | literal)` iterated by `expressions`. -/
def exprAlt (i : List Char) : IResult Expression :=
  match function i with
  | IResult.done r e => IResult.done r e
  | IResult.error => literal i
  | IResult.incomplete => IResult.incomplete

/-- `many0!` of the alternation.  Stops with `done` (keeping the unconsumed
remainder) when the inner parser errors, propagates `incomplete`, and raises
`error` if the inner parser succeeds without consuming input.  `fuel` bounds
the recursion; the inner parser always consumes when it succeeds, so fuel
`i.length + 1` is sufficient. -/
def many0Expr : Nat → List Char → IResult (List Expression)
  | 0, i => IResult.done i []
  | fuel + 1, i =>
    if i.isEmpty then IResult.done i []
    else
      match exprAlt i with
      | IResult.error => IResult.done i []
      | IResult.incomplete => IResult.incomplete
      | IResult.done i2 e =>
        if i2.length = i.length then IResult.error
        else
          match many0Expr fuel i2 with
          | IResult.done i3 es => IResult.done i3 (e :: es)
          | IResult.error => IResult.error
          | IResult.incomplete => IResult.incomplete

/-- `expressions` from src/parse.rs: `many0!(alt!(function | literal))`. -/
def expressions (i : List Char) : IResult (List Expression) :=
  many0Expr (i.length + 1) i

/-- `parse` from src/parse.rs.  Note that the source matches
`IResult::Done(_, expressions)`, discarding any unconsumed remainder. -/
def parse (s : String) : Except EdoError (List Expression) :=
  match expressions s.data with
  | IResult.done _ es => Except.ok es
  | IResult.error => Except.error EdoError.ParsingError
  | IResult.incomplete => Except.error EdoError.ParsingError

/-- `ValueProducer` from src/lib.rs: either a boxed handler closure or a
fixed string. -/
inductive ValueProducer (C : Type) : Type where
  | handler : (List String → C → Except String String) → ValueProducer C
  | static : String → ValueProducer C

/-- The `Edo` template struct from src/lib.rs: a name-keyed registry of value
producers together with the parsed expression sequence. -/
structure Edo (C : Type) : Type where
  value_producers : List (String × ValueProducer C)
  template : List Expression

/-- `HashMap::get` on the registry, modelled on an association list with
unique keys: the value stored under `n`, if any. -/
def getVP {C : Type} : List (String × ValueProducer C) → String → Option (ValueProducer C)
  | [], _ => none
  | (k, v) :: rest, n => if k = n then some v else getVP rest n

/-- `HashMap::insert` on the registry: replaces the entry for an existing
key, otherwise appends a new entry. -/
def insertVP {C : Type} :
    List (String × ValueProducer C) → String → ValueProducer C →
      List (String × ValueProducer C)
  | [], n, v => [(n, v)]
  | (k, w) :: rest, n, v =>
    if k = n then (n, v) :: rest else (k, w) :: insertVP rest n v

/-- `Edo::new` from src/lib.rs: parse the template string; the registry
starts empty. -/
def Edo.new (C : Type) (template_string : String) : Except EdoError (Edo C) :=
  match parse template_string with
  | Except.ok es => Except.ok (Edo.mk [] es)
  | Except.error e => Except.error e

/-- `Edo::register_handler` from src/lib.rs. -/
def Edo.register_handler {C : Type} (edo : Edo C) (name : String)
    (h : List String → C → Except String String) : Edo C :=
  Edo.mk (insertVP edo.value_producers name (ValueProducer.handler h)) edo.template

/-- `Edo::register_static` from src/lib.rs. -/
def Edo.register_static {C : Type} (edo : Edo C) (name : String)
    (input : String) : Edo C :=
  Edo.mk (insertVP edo.value_producers name (ValueProducer.static input)) edo.template

/-- One iteration of the `render_with_errors` loop from src/lib.rs: the
state carries `self` (read-only: only its registry is consulted), the output
accumulator, and the error accumulator.  A literal is appended verbatim; a
function call is resolved through the registry, a missing producer or a
failing handler contributing the empty string, and a failing handler
additionally pushing its message. -/
def renderStep {C : Type} (ctx : C) (acc : Edo C × String × List String)
    (e : Expression) : Edo C × String × List String :=
  match acc, e with
  | (edo, output, errors), Expression.literal text => (edo, output ++ text, errors)
  | (edo, output, errors), Expression.function name args =>
    match getVP edo.value_producers name with
    | none => (edo, output ++ "", errors)
    | some (ValueProducer.handler h) =>
      match h args ctx with
      | Except.ok s => (edo, output ++ s, errors)
      | Except.error err => (edo, output ++ "", errors ++ [err])
    | some (ValueProducer.static v) => (edo, output ++ v, errors)

/-- The full `render_with_errors` loop: fold over the template, starting
from `self`, an empty output and no errors. -/
def renderRun {C : Type} (edo : Edo C) (ctx : C) : Edo C × String × List String :=
  edo.template.foldl (renderStep ctx) (edo, "", [])

/-- `Edo::render_with_errors` from src/lib.rs. -/
def Edo.render_with_errors {C : Type} (edo : Edo C) (ctx : C) :
    String × List String :=
  ((renderRun edo ctx).2.1, (renderRun edo ctx).2.2)

/-- `Edo::render` from src/lib.rs: `self.render_with_errors(context).0`. -/
def Edo.render {C : Type} (edo : Edo C) (ctx : C) : String :=
  (edo.render_with_errors ctx).1

/-- The string a single expression contributes to the output, given the
registry and the context (read off the match in `render_with_errors`). -/
def exprOut {C : Type} (m : List (String × ValueProducer C)) (ctx : C) :
    Expression → String
  | Expression.literal text => text
  | Expression.function name args =>
    match getVP m name with
    | none => ""
    | some (ValueProducer.handler h) =>
      match h args ctx with
      | Except.ok s => s
      | Except.error _ => ""
    | some (ValueProducer.static v) => v

/-- The error messages a single expression contributes: at most one, and
exactly one iff its producer is a handler that fails. -/
def exprErrs {C : Type} (m : List (String × ValueProducer C)) (ctx : C) :
    Expression → List String
  | Expression.literal _ => []
  | Expression.function name args =>
    match getVP m name with
    | none => []
    | some (ValueProducer.handler h) =>
      match h args ctx with
      | Except.ok _ => []
      | Except.error err => [err]
    | some (ValueProducer.static _) => []

/-- Concatenated output contributions of a template. -/
def outList {C : Type} (m : List (String × ValueProducer C)) (ctx : C) :
    List Expression → String
  | [] => ""
  | e :: es => exprOut m ctx e ++ outList m ctx es

/-- Concatenated error contributions of a template. -/
def errList {C : Type} (m : List (String × ValueProducer C)) (ctx : C) :
    List Expression → List String
  | [] => []
  | e :: es => exprErrs m ctx e ++ errList m ctx es

/-! Basic facts about the combinators: every successful parse leaves a
suffix of its input as remainder, and the parsers that open an expression
consume at least one character. -/

theorem charP_done_eq {c : Char} {i r : List Char} {u : Unit}
    (h : charP c i = IResult.done r u) : i = c :: r := by
  cases i with
  | nil => simp [charP] at h
  | cons x xs =>
    by_cases hx : x = c
    · simp only [charP, if_pos hx] at h
      cases h
      rw [hx]
    · simp [charP, hx] at h

theorem takeUntilChar_done_suffix {c : Char} {i r cs : List Char}
    (h : takeUntilChar c i = IResult.done r cs) : r <:+ i := by
  cases i with
  | nil => simp [takeUntilChar] at h
  | cons x xs =>
    by_cases hm : c ∈ x :: xs
    · simp only [takeUntilChar, if_pos hm] at h
      cases h
      exact List.dropWhile_suffix _
    · simp [takeUntilChar, hm] at h

theorem isNotChar_done_suffix {c : Char} {i r cs : List Char}
    (h : isNotChar c i = IResult.done r cs) : r <:+ i := by
  cases i with
  | nil =>
    simp only [isNotChar] at h
    cases h
    exact List.suffix_refl _
  | cons x xs =>
    by_cases hx : x = c
    · simp [isNotChar, hx] at h
    · simp only [isNotChar, if_neg hx] at h
      cases h
      exact List.dropWhile_suffix _

theorem alphanumeric_done_suffix {i r cs : List Char}
    (h : alphanumeric i = IResult.done r cs) : r <:+ i := by
  cases i with
  | nil => simp [alphanumeric] at h
  | cons x xs =>
    by_cases hx : isAlphanumericChar x
    · simp only [alphanumeric, if_pos hx] at h
      cases h
      exact List.dropWhile_suffix _
    · simp [alphanumeric, hx] at h

theorem argElement_done_suffix {i r : List Char} {s : String}
    (h : argElement i = IResult.done r s) : r <:+ i := by
  unfold argElement at h
  cases ha : alphanumeric i with
  | done r2 cs =>
    rw [ha] at h
    cases h
    exact alphanumeric_done_suffix ha
  | error => rw [ha] at h; cases h
  | incomplete => rw [ha] at h; cases h

theorem argSeparator_done_suffix {i r : List Char} {u : Unit}
    (h : argSeparator i = IResult.done r u) : r <:+ i := by
  unfold argSeparator at h
  cases hc : charP ',' i with
  | done i1 u1 =>
    rw [hc] at h
    simp only [spaces] at h
    cases h
    have h1 : i1.dropWhile (· == ' ') <:+ i1 := List.dropWhile_suffix _
    have h2 : i1 <:+ i := by
      rw [charP_done_eq hc]
      exact List.suffix_cons _ _
    exact h1.trans h2
  | error => rw [hc] at h; cases h
  | incomplete => rw [hc] at h; cases h

theorem sepListLoop_done_suffix :
    ∀ (fuel : Nat) (acc : List String) (i r : List Char) (out : List String),
      sepListLoop fuel acc i = IResult.done r out → r <:+ i := by
  intro fuel
  induction fuel with
  | zero =>
    intro acc i r out h
    simp only [sepListLoop] at h
    cases h
    exact List.suffix_refl _
  | succ n ih =>
    intro acc i r out h
    simp only [sepListLoop] at h
    split at h
    · cases h
      exact List.suffix_refl _
    · cases h
    · next i2 u hs =>
      split at h
      · cases h
        exact List.suffix_refl _
      · cases h
      · next i3 b he =>
        exact ((ih _ _ _ _ h).trans (argElement_done_suffix he)).trans
          (argSeparator_done_suffix hs)

theorem separatedList_done_suffix {i r : List Char} {out : List String}
    (h : separatedList i = IResult.done r out) : r <:+ i := by
  unfold separatedList at h
  cases he : argElement i with
  | done i1 a =>
    rw [he] at h
    exact (sepListLoop_done_suffix _ _ _ _ _ h).trans (argElement_done_suffix he)
  | error =>
    rw [he] at h
    cases h
    exact List.suffix_refl _
  | incomplete => rw [he] at h; cases h

theorem arguments_done_suffix {i r : List Char} {out : List String}
    (h : arguments i = IResult.done r out) : r <:+ i := by
  unfold arguments at h
  split at h
  · next i1 u1 h1 =>
    split at h
    · next i2 as h2 =>
      split at h
      · next i3 u3 h3 =>
        cases h
        have hr : r <:+ i2 := by
          rw [charP_done_eq h3]
          exact List.suffix_cons _ _
        refine (hr.trans (separatedList_done_suffix h2)).trans ?_
        rw [charP_done_eq h1]
        exact List.suffix_cons _ _
      · cases h
      · cases h
    · cases h
    · cases h
  · cases h
  · cases h

theorem functionName_done_suffix {i r cs : List Char}
    (h : functionName i = IResult.done r cs) : r <:+ i := by
  unfold functionName at h
  cases h1 : takeUntilChar '\x28' i with
  | done r1 cs1 =>
    rw [h1] at h
    cases h
    exact takeUntilChar_done_suffix h1
  | error =>
    rw [h1] at h
    exact takeUntilChar_done_suffix h
  | incomplete => rw [h1] at h; cases h

theorem optArguments_done_suffix {i r : List Char} {as : List String}
    (h : optArguments i = IResult.done r as) : r <:+ i := by
  unfold optArguments at h
  split at h
  · next i3 as3 h3 =>
    cases h
    exact arguments_done_suffix h3
  · cases h
    exact List.suffix_refl _
  · cases h

theorem functionClose_done {nameCs i3 : List Char} {args : List String}
    {r : List Char} {e : Expression}
    (h : functionClose nameCs args i3 = IResult.done r e) :
    i3 = '\x7d' :: r ∧ e = Expression.function (String.mk nameCs) args := by
  unfold functionClose at h
  split at h
  · next i4 u4 h4 =>
    cases h
    exact ⟨charP_done_eq h4, rfl⟩
  · cases h
  · cases h

theorem function_done_shape {i r : List Char} {e : Expression}
    (h : function i = IResult.done r e) :
    ∃ xs, i = '\x7b' :: xs ∧ r <:+ xs ∧ ∃ n as, e = Expression.function n as := by
  unfold function at h
  split at h
  · next i1 u1 h1 =>
    split at h
    · next i2 nameCs h2 =>
      split at h
      · next i3 args h3 =>
        obtain ⟨hi3, he⟩ := functionClose_done h
        refine ⟨i1, charP_done_eq h1, ?_, _, _, he⟩
        have hr : r <:+ i3 := by
          rw [hi3]
          exact List.suffix_cons _ _
        exact (hr.trans (optArguments_done_suffix h3)).trans
          (functionName_done_suffix h2)
      · cases h
      · cases h
    · cases h
    · cases h
  · cases h
  · cases h

theorem function_done_length {i r : List Char} {e : Expression}
    (h : function i = IResult.done r e) : r.length < i.length := by
  obtain ⟨xs, hi, hr, -⟩ := function_done_shape h
  rw [hi]
  exact Nat.lt_succ_of_le hr.length_le

theorem function_done_suffix {i r : List Char} {e : Expression}
    (h : function i = IResult.done r e) : r <:+ i := by
  obtain ⟨xs, hi, hr, -⟩ := function_done_shape h
  rw [hi]
  exact hr.trans (List.suffix_cons _ _)

theorem literal_done_shape {x : Char} {xs r : List Char} {e : Expression}
    (h : literal (x :: xs) = IResult.done r e) :
    ¬ x = '\x7b' ∧ r = xs.dropWhile (· != '\x7b')
      ∧ e = Expression.literal (String.mk (x :: xs.takeWhile (· != '\x7b'))) := by
  unfold literal isNotChar at h
  by_cases hx : x = '\x7b'
  · simp [hx] at h
  · simp only [if_neg hx] at h
    cases h
    have hb : (x != '\x7b') = true := by
      simp [bne_iff_ne, hx]
    constructor
    · exact hx
    constructor
    · simp [List.dropWhile_cons, hb]
    · simp [List.takeWhile_cons, hb]

theorem literal_done_suffix {i r : List Char} {e : Expression}
    (h : literal i = IResult.done r e) : r <:+ i := by
  unfold literal at h
  split at h
  · next r2 cs2 h2 =>
    cases h
    exact isNotChar_done_suffix h2
  · cases h
  · cases h

theorem exprAlt_done_suffix {i r : List Char} {e : Expression}
    (h : exprAlt i = IResult.done r e) : r <:+ i := by
  unfold exprAlt at h
  split at h
  · next r2 e2 h2 =>
    cases h
    exact function_done_suffix h2
  · exact literal_done_suffix h
  · cases h

theorem exprAlt_done_length {i r : List Char} {e : Expression}
    (h : exprAlt i = IResult.done r e) : r.length < i.length := by
  unfold exprAlt at h
  split at h
  · next r2 e2 h2 =>
    cases h
    exact function_done_length h2
  · next h2 =>
    cases i with
    | nil => simp [function, charP] at h2
    | cons x xs =>
      obtain ⟨hx, hr, -⟩ := literal_done_shape h
      rw [hr]
      exact Nat.lt_succ_of_le (List.dropWhile_suffix _).length_le
  · cases h

theorem exprAlt_done_literal {i r : List Char} {t : String}
    (h : exprAlt i = IResult.done r (Expression.literal t)) : t.data ≠ [] := by
  unfold exprAlt at h
  split at h
  · next r2 e2 h2 =>
    cases h
    obtain ⟨-, -, -, n, as, habs⟩ := function_done_shape h2
    cases habs
  · next h2 =>
    cases i with
    | nil => simp [function, charP] at h2
    | cons x xs =>
      obtain ⟨-, -, ht⟩ := literal_done_shape h
      cases ht
      simp
  · cases h

/-! Facts about the `many0!` loop. -/

theorem many0Expr_ne_error : ∀ (fuel : Nat) (i : List Char),
    many0Expr fuel i ≠ IResult.error := by
  intro fuel
  induction fuel with
  | zero => intro i h; simp [many0Expr] at h
  | succ n ih =>
    intro i h
    simp only [many0Expr] at h
    split at h
    · cases h
    · split at h
      · cases h
      · cases h
      · next i2 e ha =>
        split at h
        · next hlen => exact absurd hlen (Nat.ne_of_lt (exprAlt_done_length ha))
        · next hlen =>
          split at h
          · cases h
          · next hm => exact ih i2 hm
          · cases h

/-- Instrumented variant of the `many0!` loop that also records, for each
parsed expression, the span of input characters it consumed.  The parsing
decisions are exactly those of `many0Expr` (see `many0Expr_eq_strip`). -/
def many0ExprS : Nat → List Char → IResult (List (Expression × List Char))
  | 0, i => IResult.done i []
  | fuel + 1, i =>
    if i.isEmpty then IResult.done i []
    else
      match exprAlt i with
      | IResult.error => IResult.done i []
      | IResult.incomplete => IResult.incomplete
      | IResult.done i2 e =>
        if i2.length = i.length then IResult.error
        else
          match many0ExprS fuel i2 with
          | IResult.done i3 es =>
            IResult.done i3 ((e, i.take (i.length - i2.length)) :: es)
          | IResult.error => IResult.error
          | IResult.incomplete => IResult.incomplete

/-- `expressions` instrumented with consumed spans. -/
def expressionsWithSpans (i : List Char) :
    IResult (List (Expression × List Char)) :=
  many0ExprS (i.length + 1) i

/-- Forget the recorded spans of an instrumented result. -/
def stripSpans : IResult (List (Expression × List Char)) → IResult (List Expression)
  | IResult.done r ses => IResult.done r (ses.map Prod.fst)
  | IResult.error => IResult.error
  | IResult.incomplete => IResult.incomplete

/-- Concatenation of the recorded spans, in order. -/
def spanJoin : List (Expression × List Char) → List Char
  | [] => []
  | p :: ps => p.2 ++ spanJoin ps

theorem many0Expr_eq_strip : ∀ (fuel : Nat) (i : List Char),
    many0Expr fuel i = stripSpans (many0ExprS fuel i) := by
  intro fuel
  induction fuel with
  | zero => intro i; simp [many0Expr, many0ExprS, stripSpans]
  | succ n ih =>
    intro i
    simp only [many0Expr, many0ExprS]
    split
    · simp [stripSpans]
    · cases ha : exprAlt i with
      | error => simp [stripSpans]
      | incomplete => simp [stripSpans]
      | done i2 e =>
        simp only []
        split
        · simp [stripSpans]
        · rw [ih i2]
          cases hm : many0ExprS n i2 with
          | done i3 es => simp [stripSpans]
          | error => simp [stripSpans]
          | incomplete => simp [stripSpans]

theorem many0ExprS_spans : ∀ (fuel : Nat) (i r : List Char)
    (ses : List (Expression × List Char)),
    many0ExprS fuel i = IResult.done r ses → spanJoin ses ++ r = i := by
  intro fuel
  induction fuel with
  | zero =>
    intro i r ses h
    simp only [many0ExprS] at h
    cases h
    rfl
  | succ n ih =>
    intro i r ses h
    simp only [many0ExprS] at h
    split at h
    · cases h
      rfl
    · split at h
      · cases h
        rfl
      · cases h
      · next i2 e ha =>
        split at h
        · cases h
        · next hlen =>
          split at h
          · next i3 es hm =>
            cases h
            obtain ⟨t, ht⟩ := exprAlt_done_suffix ha
            have htlen : t.length = i.length - i2.length := by
              have : t.length + i2.length = i.length := by
                rw [← ht, List.length_append]
              omega
            have htake : i.take (i.length - i2.length) = t := by
              rw [← htlen, ← ht, List.take_left]
            simp only [spanJoin, htake]
            rw [List.append_assoc, ih i2 _ _ hm, ht]
          · cases h
          · cases h

theorem many0Expr_literal_ne_nil : ∀ (fuel : Nat) (i r : List Char)
    (es : List Expression), many0Expr fuel i = IResult.done r es →
    ∀ t : String, Expression.literal t ∈ es → t.data ≠ [] := by
  intro fuel
  induction fuel with
  | zero =>
    intro i r es h t hmem
    simp only [many0Expr] at h
    cases h
    simp at hmem
  | succ n ih =>
    intro i r es h t hmem
    simp only [many0Expr] at h
    split at h
    · cases h
      simp at hmem
    · split at h
      · cases h
        simp at hmem
      · cases h
      · next i2 e ha =>
        split at h
        · cases h
        · next hlen =>
          split at h
          · next i3 es2 hm =>
            cases h
            rcases List.mem_cons.mp hmem with hhead | htail
            · rw [← hhead] at ha
              exact exprAlt_done_literal ha
            · exact ih i2 _ _ hm t htail
          · cases h
          · cases h

/-! Facts about the render loop. -/

theorem renderStep_eq {C : Type} (ctx : C) (E : Edo C) (o : String)
    (errs : List String) (e : Expression) :
    renderStep ctx (E, o, errs) e
      = (E, o ++ exprOut E.value_producers ctx e,
          errs ++ exprErrs E.value_producers ctx e) := by
  cases e with
  | literal t => simp [renderStep, exprOut, exprErrs]
  | function n args =>
    simp only [renderStep, exprOut, exprErrs]
    cases h : getVP E.value_producers n with
    | none => simp
    | some vp =>
      cases vp with
      | handler hh =>
        cases h2 : hh args ctx with
        | ok s => simp [h2]
        | error err => simp [h2]
      | static v => simp

theorem foldl_renderStep {C : Type} (ctx : C) :
    ∀ (tpl : List Expression) (E : Edo C) (o : String) (errs : List String),
    tpl.foldl (renderStep ctx) (E, o, errs)
      = (E, o ++ outList E.value_producers ctx tpl,
          errs ++ errList E.value_producers ctx tpl) := by
  intro tpl
  induction tpl with
  | nil =>
    intro E o errs
    simp [outList, errList, String.append_empty]
  | cons e es ih =>
    intro E o errs
    rw [List.foldl_cons, renderStep_eq, ih]
    simp [outList, errList, String.append_assoc]

theorem render_with_errors_eq {C : Type} (m : List (String × ValueProducer C))
    (tpl : List Expression) (ctx : C) :
    Edo.render_with_errors (Edo.mk m tpl) ctx
      = (outList m ctx tpl, errList m ctx tpl) := by
  unfold Edo.render_with_errors renderRun
  rw [foldl_renderStep]
  simp [String.empty_append]

theorem outList_append {C : Type} (m : List (String × ValueProducer C))
    (ctx : C) (a b : List Expression) :
    outList m ctx (a ++ b) = outList m ctx a ++ outList m ctx b := by
  induction a with
  | nil => simp [outList, String.empty_append]
  | cons e es ih => simp [outList, ih, String.append_assoc]

theorem errList_append {C : Type} (m : List (String × ValueProducer C))
    (ctx : C) (a b : List Expression) :
    errList m ctx (a ++ b) = errList m ctx a ++ errList m ctx b := by
  induction a with
  | nil => simp [errList]
  | cons e es ih => simp [errList, ih]

theorem insertVP_insertVP {C : Type} (m : List (String × ValueProducer C))
    (n : String) (v1 v2 : ValueProducer C) :
    insertVP (insertVP m n v1) n v2 = insertVP m n v2 := by
  induction m with
  | nil => simp [insertVP]
  | cons kv rest ih =>
    obtain ⟨k, w⟩ := kv
    by_cases hk : k = n
    · simp [insertVP, hk]
    · simp [insertVP, hk, ih]

/-- `expressions` never returns `error`: the inner alternation always
consumes input when it succeeds, so the no-progress guard of `many0!` can
never fire. -/
theorem expressions_ne_error (i : List Char) : expressions i ≠ IResult.error :=
  many0Expr_ne_error _ _

/-- C1 counterexample: the claim states that `parse` applied to the string
consisting of an open brace followed by the word `unterminated` is an error;
in fact the alternation fails with `error` on the very first iteration (no
parenthesis and no closing brace occur, and a literal cannot start at an
open brace), `many0!` stops and returns `done` with the whole input as the
unconsumed remainder, and `parse` matches that remainder with the wildcard
pattern, returning `Ok` with the empty expression list. -/
theorem parse_unterminated_ok : parse "\x7bunterminated" = Except.ok [] := rfl

/-- C1 (amended): `parse` returns `Err(ParsingError)` exactly when the
expression loop ends in the `incomplete` state, i.e. when its final attempt
at a placeholder runs off the end of the input — examples: an input that is
a single open brace, one truncated inside an argument list (the
`incomplete` of `arguments` propagates through the optional field of
`chain!`), or one that ends right after a complete argument list while
missing the closing brace.  A mid-input failure of the `error` kind (such
as a rest containing neither a parenthesis nor a closing brace) instead
stops the loop and the remaining input is silently discarded, so `parse`
can return `Ok` without having consumed every byte — in particular the
open-brace-plus-`unterminated` input parses to `Ok` of the empty list. -/
theorem parse_error_characterization :
    (∀ s : String, parse s = Except.error EdoError.ParsingError ↔
      expressions s.data = IResult.incomplete)
    ∧ parse "\x7bunterminated" = Except.ok []
    ∧ parse "\x7b" = Except.error EdoError.ParsingError
    ∧ parse "\x7bf(a" = Except.error EdoError.ParsingError
    ∧ parse "\x7bf()" = Except.error EdoError.ParsingError := by
  refine ⟨?_, rfl, rfl, rfl, rfl⟩
  intro s
  unfold parse
  cases h : expressions s.data with
  | done r es => simp
  | error => exact absurd h (expressions_ne_error _)
  | incomplete => simp

/-- C1 witness: a concrete input ending in an open brace is rejected, via
the characterization. -/
theorem parse_error_characterization_witness :
    parse "ab\x7b" = Except.error EdoError.ParsingError :=
  (parse_error_characterization.1 "ab\x7b").mpr rfl

/-- C2 counterexample: the claim states that concatenating the literal texts
and placeholder spans of a successful parse reproduces the input exactly; on
the input `abc` followed by an open brace and `def`, `parse` succeeds with a
single literal whose text is `abc`, so the concatenation is `abc`, not the
input. -/
theorem parse_partial_consumption :
    parse "abc\x7bdef" = Except.ok [Expression.literal "abc"]
    ∧ ("abc" : String) ≠ "abc\x7bdef" :=
  ⟨rfl, by decide⟩

/-- C2 (amended): concatenating, in order, the span of input characters
consumed by each parsed expression yields the consumed prefix of the input
(the input minus the unconsumed remainder), and `parse` succeeds with
exactly those expressions; when the remainder is empty this is the
round-trip partition of the claim, but `parse` may also succeed while
consuming only a proper prefix, silently discarding the rest. -/
theorem spans_reproduce_consumed_prefix (s : String) (r : List Char)
    (ses : List (Expression × List Char))
    (h : expressionsWithSpans s.data = IResult.done r ses) :
    spanJoin ses ++ r = s.data ∧ parse s = Except.ok (ses.map Prod.fst) := by
  constructor
  · exact many0ExprS_spans _ _ _ _ h
  · have he : expressions s.data = IResult.done r (ses.map Prod.fst) := by
      unfold expressions
      rw [many0Expr_eq_strip]
      unfold expressionsWithSpans at h
      rw [h]
      rfl
    unfold parse
    rw [he]

/-- C2 witness: on a fully consumed input the spans partition the whole
input. -/
theorem spans_reproduce_consumed_prefix_witness :
    spanJoin [(Expression.literal "a", ['a']),
        (Expression.function "b" [], ['\x7b', 'b', '\x7d'])] ++ []
      = ("a\x7bb\x7d" : String).data
    ∧ parse "a\x7bb\x7d"
      = Except.ok [Expression.literal "a", Expression.function "b" []] := by
  have h := spans_reproduce_consumed_prefix "a\x7bb\x7d" []
    [(Expression.literal "a", ['a']),
     (Expression.function "b" [], ['\x7b', 'b', '\x7d'])] rfl
  exact ⟨h.1, by simpa using h.2⟩

/-- C5 counterexample: the claim states that every parsed placeholder has a
non-empty name; on the input consisting of an open brace, an empty
parenthesised argument list and a closing brace, the name search finds the
parenthesis immediately and `parse` succeeds with a placeholder whose name
is the empty string. -/
theorem parse_empty_function_name :
    parse "\x7b()\x7d" = Except.ok [Expression.function "" []] := rfl

/-- C5 (amended): for every input on which `parse` succeeds, every
`Literal` expression in the result has non-empty text (`is_not!` only
succeeds on a non-empty prefix); the claim's non-empty-name guarantee for
placeholders does not hold, as the counterexample shows. -/
theorem parse_literals_nonempty (s : String) (es : List Expression)
    (h : parse s = Except.ok es) :
    ∀ t : String, Expression.literal t ∈ es → t ≠ "" := by
  intro t hmem
  unfold parse at h
  cases he : expressions s.data with
  | done r es2 =>
    rw [he] at h
    injection h with h2
    subst h2
    intro hcontra
    refine many0Expr_literal_ne_nil (s.data.length + 1) s.data r _ he t hmem ?_
    rw [hcontra]
  | error => rw [he] at h; cases h
  | incomplete => rw [he] at h; cases h

/-- C5 witness: the literal parsed from a concrete two-character input is
non-empty. -/
theorem parse_literals_nonempty_witness :
    parse "hi" = Except.ok [Expression.literal "hi"] ∧ ("hi" : String) ≠ "" :=
  ⟨rfl, parse_literals_nonempty "hi" [Expression.literal "hi"] rfl "hi"
    (by simp)⟩

/-- C3: error isolation.  When a registered handler fails on a placeholder,
`render_with_errors` substitutes the empty string for that placeholder,
records exactly the handler's message at that position of the error list,
and renders the surrounding expressions exactly as it would render them on
their own: the output is the concatenation of the renderings of the
expressions before and after the failing placeholder, and the error list is
the errors of the prefix, then the message, then the errors of the suffix —
so the render is never aborted and errors appear in document order, one per
failing placeholder. -/
theorem render_error_isolation {C : Type} (m : List (String × ValueProducer C))
    (tpl1 tpl2 : List Expression) (name : String) (args : List String)
    (hf : List String → C → Except String String) (msg : String) (ctx : C)
    (h1 : getVP m name = some (ValueProducer.handler hf))
    (h2 : hf args ctx = Except.error msg) :
    Edo.render_with_errors
        (Edo.mk m (tpl1 ++ Expression.function name args :: tpl2)) ctx
      = ((Edo.render_with_errors (Edo.mk m tpl1) ctx).1
            ++ (Edo.render_with_errors (Edo.mk m tpl2) ctx).1,
         (Edo.render_with_errors (Edo.mk m tpl1) ctx).2
            ++ msg :: (Edo.render_with_errors (Edo.mk m tpl2) ctx).2) := by
  rw [render_with_errors_eq, render_with_errors_eq, render_with_errors_eq,
    outList_append, errList_append]
  simp [outList, errList, exprOut, exprErrs, h1, h2, String.append_assoc]

/-- C3 witness: Example 5 of the specification, a handler that fails with
message `BORK`, via the isolation theorem. -/
theorem render_error_isolation_witness :
    Edo.render_with_errors
        (Edo.mk [("name", ValueProducer.handler
            (fun (_ : List String) (_ : Unit) => Except.error "BORK"))]
          [Expression.literal "Hello ", Expression.function "name" []]) ()
      = ("Hello ", ["BORK"]) :=
  Eq.trans
    (render_error_isolation
      [("name", ValueProducer.handler
          (fun (_ : List String) (_ : Unit) => Except.error "BORK"))]
      [Expression.literal "Hello "] [] "name" []
      (fun (_ : List String) (_ : Unit) => Except.error "BORK") "BORK" ()
      rfl rfl)
    rfl

/-- C4: missing-handler tolerance.  A placeholder whose name has no
registered producer contributes exactly the empty string to the output and
no entry to the error list: the render of a template containing it is the
render of the surrounding expressions alone. -/
theorem render_missing_handler {C : Type} (m : List (String × ValueProducer C))
    (tpl1 tpl2 : List Expression) (name : String) (args : List String)
    (ctx : C) (h : getVP m name = none) :
    Edo.render_with_errors
        (Edo.mk m (tpl1 ++ Expression.function name args :: tpl2)) ctx
      = ((Edo.render_with_errors (Edo.mk m tpl1) ctx).1
            ++ (Edo.render_with_errors (Edo.mk m tpl2) ctx).1,
         (Edo.render_with_errors (Edo.mk m tpl1) ctx).2
            ++ (Edo.render_with_errors (Edo.mk m tpl2) ctx).2) := by
  rw [render_with_errors_eq, render_with_errors_eq, render_with_errors_eq,
    outList_append, errList_append]
  simp [outList, errList, exprOut, exprErrs, h, String.append_assoc]

/-- C4 witness: the specification's example — constructing the template
from the string `Hello ` followed by a `name` placeholder, registering
nothing, and rendering, yields the output `Hello ` and no errors. -/
theorem render_missing_handler_witness :
    Edo.new Unit "Hello \x7bname\x7d"
      = Except.ok (Edo.mk []
          [Expression.literal "Hello ", Expression.function "name" []])
    ∧ Edo.render_with_errors
        (Edo.mk ([] : List (String × ValueProducer Unit))
          [Expression.literal "Hello ", Expression.function "name" []]) ()
      = ("Hello ", []) :=
  ⟨rfl,
    Eq.trans
      (render_missing_handler ([] : List (String × ValueProducer Unit))
        [Expression.literal "Hello "] [] "name" [] () rfl)
      rfl⟩

/-- C6: handler invocation.  When a placeholder's name is registered to a
handler, rendering invokes the handler on the placeholder's parsed argument
tokens (in template order) and the render context, and on success appends
exactly the returned string in place of the placeholder, leaving the error
list untouched. -/
theorem render_handler_invocation {C : Type} (m : List (String × ValueProducer C))
    (tpl1 tpl2 : List Expression) (name : String) (args : List String)
    (hf : List String → C → Except String String) (s : String) (ctx : C)
    (h1 : getVP m name = some (ValueProducer.handler hf))
    (h2 : hf args ctx = Except.ok s) :
    Edo.render_with_errors
        (Edo.mk m (tpl1 ++ Expression.function name args :: tpl2)) ctx
      = ((Edo.render_with_errors (Edo.mk m tpl1) ctx).1
            ++ s ++ (Edo.render_with_errors (Edo.mk m tpl2) ctx).1,
         (Edo.render_with_errors (Edo.mk m tpl1) ctx).2
            ++ (Edo.render_with_errors (Edo.mk m tpl2) ctx).2) := by
  rw [render_with_errors_eq, render_with_errors_eq, render_with_errors_eq,
    outList_append, errList_append]
  simp [outList, errList, exprOut, exprErrs, h1, h2, String.append_assoc]

/-- C6 witness: Example 4 of the specification — the template parsed from
`Hello ` followed by a `name` placeholder with arguments `Gio` and `yes`,
with the example handler registered for `name`, renders to `Hello Gio!`
with no errors. -/
theorem render_handler_invocation_witness :
    parse "Hello \x7bname(Gio, yes)\x7d"
      = Except.ok [Expression.literal "Hello ",
          Expression.function "name" ["Gio", "yes"]]
    ∧ Edo.render_with_errors
        (Edo.register_handler
          (Edo.mk ([] : List (String × ValueProducer Unit))
            [Expression.literal "Hello ",
             Expression.function "name" ["Gio", "yes"]])
          "name"
          (fun (args : List String) (_ : Unit) =>
            Except.ok ((args.getD 0 "")
              ++ (if args.getD 1 "" = "yes" then "!" else ""))))
        ()
      = ("Hello Gio!", []) :=
  ⟨rfl,
    Eq.trans
      (render_handler_invocation
        [("name", ValueProducer.handler
            (fun (args : List String) (_ : Unit) =>
              Except.ok ((args.getD 0 "")
                ++ (if args.getD 1 "" = "yes" then "!" else ""))))]
        [Expression.literal "Hello "] [] "name" ["Gio", "yes"]
        (fun (args : List String) (_ : Unit) =>
          Except.ok ((args.getD 0 "")
            ++ (if args.getD 1 "" = "yes" then "!" else ""))) "Gio!" ()
        rfl rfl)
      rfl⟩

/-- Helper for C8: on a template whose placeholders all resolve to static
producers, the per-expression contributions are independent of the context
and produce no errors. -/
theorem staticOnly_outErr {C : Type} (m : List (String × ValueProducer C))
    (c1 c2 : C) :
    ∀ tpl : List Expression,
    (∀ (name : String) (args : List String),
        Expression.function name args ∈ tpl →
        ∃ v : String, getVP m name = some (ValueProducer.static v)) →
    outList m c1 tpl = outList m c2 tpl ∧ errList m c1 tpl = [] := by
  intro tpl
  induction tpl with
  | nil => intro _; simp [outList, errList]
  | cons e es ih =>
    intro h
    have hes := ih (fun name args hmem => h name args (List.mem_cons_of_mem _ hmem))
    cases e with
    | literal t => simp [outList, errList, exprOut, exprErrs, hes.1, hes.2]
    | function name args =>
      obtain ⟨v, hv⟩ := h name args (List.mem_cons_self _ _)
      simp [outList, errList, exprOut, exprErrs, hv, hes.1, hes.2]

/-- C7: override semantics.  After two registrations under the same name —
in any of the four combinations of `register_static` and `register_handler`
— rendering observes only the later registration; re-registration is a
total operation, never an error. -/
theorem register_override_last_wins {C : Type} (edo : Edo C) (n : String)
    (s1 s2 : String) (h1 h2 : List String → C → Except String String)
    (ctx : C) :
    (Edo.render_with_errors
        (Edo.register_static (Edo.register_static edo n s1) n s2) ctx
      = Edo.render_with_errors (Edo.register_static edo n s2) ctx)
    ∧ (Edo.render_with_errors
        (Edo.register_static (Edo.register_handler edo n h1) n s2) ctx
      = Edo.render_with_errors (Edo.register_static edo n s2) ctx)
    ∧ (Edo.render_with_errors
        (Edo.register_handler (Edo.register_static edo n s1) n h2) ctx
      = Edo.render_with_errors (Edo.register_handler edo n h2) ctx)
    ∧ (Edo.render_with_errors
        (Edo.register_handler (Edo.register_handler edo n h1) n h2) ctx
      = Edo.render_with_errors (Edo.register_handler edo n h2) ctx) := by
  unfold Edo.register_static Edo.register_handler
  simp [insertVP_insertVP]

/-- C8: context-independence of static rendering.  If every placeholder
name occurring in the template is registered to a static producer, then
rendering is the same function of the template for any two context values,
and the error list is empty; a static value is substituted regardless of
the placeholder's arguments (the hypothesis does not constrain them). -/
theorem render_static_context_independent {C : Type}
    (m : List (String × ValueProducer C)) (tpl : List Expression) (c1 c2 : C)
    (h : ∀ (name : String) (args : List String),
        Expression.function name args ∈ tpl →
        ∃ v : String, getVP m name = some (ValueProducer.static v)) :
    Edo.render_with_errors (Edo.mk m tpl) c1
      = Edo.render_with_errors (Edo.mk m tpl) c2
    ∧ (Edo.render_with_errors (Edo.mk m tpl) c1).2 = [] := by
  have ha := staticOnly_outErr m c1 c2 tpl h
  have hb := staticOnly_outErr m c2 c1 tpl h
  rw [render_with_errors_eq, render_with_errors_eq]
  refine ⟨?_, ha.2⟩
  rw [Prod.mk.injEq]
  exact ⟨ha.1, ha.2.trans hb.2.symm⟩

/-- C8 witness: the specification's static example rendered with the two
distinct natural-number contexts `0` and `1`. -/
theorem render_static_context_independent_witness :
    (Edo.render_with_errors
        (Edo.mk [("name", ValueProducer.static "World!")]
          [Expression.literal "Hello ", Expression.function "name" []])
        (0 : Nat)
      = Edo.render_with_errors
        (Edo.mk [("name", ValueProducer.static "World!")]
          [Expression.literal "Hello ", Expression.function "name" []])
        (1 : Nat))
    ∧ (Edo.render_with_errors
        (Edo.mk [("name", ValueProducer.static "World!")]
          [Expression.literal "Hello ", Expression.function "name" []])
        (0 : Nat)).2 = [] := by
  apply render_static_context_independent
  intro name args hmem
  simp only [List.mem_cons, List.mem_singleton] at hmem
  rcases hmem with h | h | h
  · cases h
  · injection h with hn ha
    subst hn
    exact ⟨"World!", rfl⟩
  · cases h

/-- C9: frame property of rendering.  The render loop threads `self`
through its fold state and never writes to it: after the fold, the `Edo`
component of the state — template and registry alike — is exactly the
initial one, and `render_with_errors` reads only the output and error
components of the final state. -/
theorem render_frame {C : Type} (edo : Edo C) (ctx : C) :
    (renderRun edo ctx).1 = edo
    ∧ Edo.render_with_errors edo ctx
      = ((renderRun edo ctx).2.1, (renderRun edo ctx).2.2) := by
  constructor
  · unfold renderRun
    rw [foldl_renderStep]
  · rfl

/-- C10: `render` returns exactly the first component of
`render_with_errors`, discarding the error list, so the two entry points
always agree on the rendered string. -/
theorem render_eq_render_with_errors_fst {C : Type} (edo : Edo C) (ctx : C) :
    Edo.render edo ctx = (Edo.render_with_errors edo ctx).1 := rfl
